import Mathlib

/-!
Verification of the EduSolve text-classification core against its specification.

The development shallowly embeds the classification subsystem:
`preprocess.py` (the text normalizer: URL/email stripping, non-letter removal,
whitespace collapsing, lowercasing, tokenization, stopword removal,
lemmatization) and `ml_model.py` (the `predict` wrapper, `classify_question`,
the keyword fallback `apply_keyword_fallback`, and the `train` /
`_train_default_model` fallback chain).

Modelling conventions:
* Strings are treated at the level of ASCII characters; Python's regular
  expressions `\s`, `\w` and `str.lower()` are modelled by their ASCII
  behaviour (all texts and keywords appearing in the source are ASCII).
* Python floats are modelled as exact rationals (`ℚ`); every arithmetic
  operation performed on confidences in the source (`min`, `max`, `+`, `×`
  with the constants 0.40, 0.50, 0.15, 0.75) produces the same comparisons
  and results over `ℚ` as over IEEE doubles at the values that occur.
* The scikit-learn estimators and the NLTK lemmatizer/stopword data are
  third-party data not contained in the repository; they are represented by
  parameters (`Backend`, `lem`, `sw`) quantified in the theorems, with the
  concrete bundled behaviour used for witnesses.
* Raised exceptions are modelled with `Except Unit`; a function that the
  source wraps in `try/except` becomes a `match` on the fallible result.
-/

namespace EduSolve

/-- Python `\s` (ASCII): space, tab, newline, carriage return, vertical tab,
form feed — the whitespace class used by `re.sub(r'\s+', ...)` and `str.strip`. -/
def pyIsSpace (c : Char) : Bool :=
  c.toNat == 32 || c.toNat == 9 || c.toNat == 10 || c.toNat == 13 ||
  c.toNat == 11 || c.toNat == 12

/-- ASCII letter, the class kept by `re.sub(r'[^a-zA-Z\s]', '', text)`. -/
def isAsciiLetter (c : Char) : Bool :=
  (65 ≤ c.toNat && c.toNat ≤ 90) || (97 ≤ c.toNat && c.toNat ≤ 122)

/-- Lowercase ASCII letter. -/
def isLowerAlpha (c : Char) : Bool :=
  97 ≤ c.toNat && c.toNat ≤ 122

/-- Python `\w` (ASCII): letter, digit or underscore; used by the `\b`
word-boundary matching in `apply_keyword_fallback`. -/
def isWordChar (c : Char) : Bool :=
  isAsciiLetter c || (48 ≤ c.toNat && c.toNat ≤ 57) || c.toNat == 95

/-- ASCII lowering of one character, the behaviour of `str.lower()` on the
ASCII range. -/
def asciiLower (c : Char) : Char :=
  if 65 ≤ c.toNat && c.toNat ≤ 90 then Char.ofNat (c.toNat + 32) else c

/-- Python `str.lower()` on a whole string (ASCII model). -/
def pyLower (s : String) : String :=
  String.mk (s.data.map asciiLower)

/-! ### `TextPreprocessor.clean_text` (preprocess.py lines 52-74)

`re.sub` with the URL pattern `http\S+|www\S+|https\S+` removes, at each
match, the literal `http` (or `www`) together with the maximal following run
of non-whitespace characters (which must be nonempty).  Since `\S` cannot
cross whitespace, matching decomposes over the maximal non-whitespace runs of
the text: inside one run, the leftmost match starts at the first position
where `http`/`www` occurs with at least one further character left in the
run, and it consumes the rest of the run.  `stripUrlsAux` processes the text
run by run, `urlCut` truncates one run at its first such position. -/

/-- The alternation `http\S+|www\S+|https\S+` matches at the head of this
(non-whitespace) run: `http` or `www` is a prefix and at least one further
character follows it inside the run.  (`https\S+` is subsumed by `http\S+`.) -/
def isUrlStart (l : List Char) : Bool :=
  (['h', 't', 't', 'p'].isPrefixOf l && decide (5 ≤ l.length)) ||
  (['w', 'w', 'w'].isPrefixOf l && decide (4 ≤ l.length))

/-- Truncate a non-whitespace run at the first position where the URL pattern
matches; everything from that position to the end of the run is consumed. -/
def urlCut : List Char → List Char
  | [] => []
  | c :: rest => if isUrlStart (c :: rest) then [] else c :: urlCut rest

/-- Run-by-run application of `re.sub(r'http\S+|www\S+|https\S+', '', text)`:
`cur` accumulates the current non-whitespace run (in order). -/
def stripUrlsAux (cur : List Char) : List Char → List Char
  | [] => urlCut cur
  | c :: rest =>
      if pyIsSpace c then urlCut cur ++ c :: stripUrlsAux [] rest
      else stripUrlsAux (cur ++ [c]) rest

def stripUrls (l : List Char) : List Char := stripUrlsAux [] l

/-- The pattern `\S+@\S+` matches somewhere inside a maximal non-whitespace
run iff the run contains an `@` that is neither its first nor its last
character; the leftmost such match then consumes the entire run. -/
def runHasEmail (run : List Char) : Bool :=
  (run.drop 1).dropLast.contains '@'

/-- Emit one maximal non-whitespace run: deleted entirely when the email
pattern matches inside it, kept verbatim otherwise. -/
def emitRun (run : List Char) : List Char :=
  if runHasEmail run then [] else run

/-- Run-by-run application of `re.sub(r'\S+@\S+', '', text)`. -/
def stripEmailsAux (cur : List Char) : List Char → List Char
  | [] => emitRun cur
  | c :: rest =>
      if pyIsSpace c then emitRun cur ++ c :: stripEmailsAux [] rest
      else stripEmailsAux (cur ++ [c]) rest

def stripEmails (l : List Char) : List Char := stripEmailsAux [] l

/-- Model of `re.sub(r'\s+', ' ', text)`: every maximal whitespace run becomes one
space.  `inSpace` records whether the previous character was whitespace. -/
def collapseWsAux (inSpace : Bool) : List Char → List Char
  | [] => []
  | c :: rest =>
      if pyIsSpace c then
        if inSpace then collapseWsAux true rest
        else ' ' :: collapseWsAux true rest
      else c :: collapseWsAux false rest

/-- Python `str.strip()`: remove whitespace from both ends. -/
def pyStripL (l : List Char) : List Char :=
  ((l.dropWhile pyIsSpace).reverse.dropWhile pyIsSpace).reverse

def pyStrip (s : String) : String := String.mk (pyStripL s.data)

/-- Embedding of `clean_text` (preprocess.py lines 52-74): strip URLs, strip emails,
remove every character that is not an ASCII letter or whitespace, collapse
whitespace runs to single spaces, strip the ends. -/
def cleanTextL (l : List Char) : List Char :=
  pyStripL (collapseWsAux false
    ((stripEmails (stripUrls l)).filter (fun c => isAsciiLetter c || pyIsSpace c)))

/-! ### Tokenization, stopword removal, lemmatization, `preprocess` -/

/-- Whitespace tokenization: `nltk.word_tokenize` restricted to the alphabet
actually produced by `clean_text` + `lowercase` (lowercase ASCII letters and
single spaces), on which Treebank tokenization coincides with splitting on
whitespace.  `cur` holds the current token reversed. -/
def tokenizeAux (cur : List Char) : List Char → List (List Char)
  | [] => if cur.isEmpty then [] else [cur.reverse]
  | c :: rest =>
      if pyIsSpace c then
        if cur.isEmpty then tokenizeAux [] rest
        else cur.reverse :: tokenizeAux [] rest
      else tokenizeAux (c :: cur) rest

/-- Python `' '.join(tokens)` at the character level. -/
def joinTokens : List (List Char) → List Char
  | [] => []
  | [t] => t
  | t :: ts => t ++ ' ' :: joinTokens ts

/-- The token sequence produced by `TextPreprocessor.preprocess`
(preprocess.py lines 117-138), parameterized by the lemmatizer `lem`
(NLTK's `WordNetLemmatizer.lemmatize`, third-party data not in the
repository) and the stopword set `sw` (`stopwords.words('english')`):
clean, lowercase, tokenize, drop stopwords (matching on the lowercased
token, as `remove_stopwords` does), lemmatize each survivor. -/
def pipeTokens (lem : String → String) (sw : List String) (l : List Char) :
    List (List Char) :=
  (((tokenizeAux [] ((cleanTextL l).map asciiLower)).filter
      (fun t => !(sw.contains (String.mk (t.map asciiLower))))).map
    (fun t => (lem (String.mk t)).data))

/-- The joined `processed_text` of `TextPreprocessor.preprocess`. -/
def pipeClean (lem : String → String) (sw : List String) (l : List Char) :
    List Char :=
  joinTokens (pipeTokens lem sw l)

/-- Embedding of `preprocess_input` / `TextPreprocessor.preprocess`: returns the cleaned
text and the token list. -/
def preprocess_input (lem : String → String) (sw : List String)
    (text : String) : String × List String :=
  (String.mk (pipeClean lem sw text.data),
   (pipeTokens lem sw text.data).map String.mk)

/-! ### `apply_keyword_fallback` (ml_model.py lines 311-400) -/

/-- The word-boundary pattern `r'\b' + re.escape(keyword) + r'\b'` matches at
the head of `l`: the keyword is a prefix of `l` and the character after it
(if any) is not a word character.  All keywords in the source consist of
word characters only, so the trailing `\b` reduces to exactly this test. -/
def matchesHere (kw l : List Char) : Bool :=
  kw.isPrefixOf l &&
    (match l.drop kw.length with
     | [] => true
     | c :: _ => !isWordChar c)

/-- Model of `re.search` with the word-boundary pattern: scan every position of the
text; a match may start only where the previous character (`prev`, `none` at
the very start) is not a word character, since every keyword starts with a
word character. -/
def hasWholeWordAux (kw : List Char) : Option Char → List Char → Bool
  | _, [] => false
  | prev, c :: rest =>
      ((match prev with
        | none => true
        | some p => !isWordChar p) && matchesHere kw (c :: rest)) ||
      hasWholeWordAux kw (some c) rest

/-- Whole-word, case-already-lowered keyword search against a text. -/
def hasWholeWord (kw text : String) : Bool :=
  hasWholeWordAux kw.data none text.data

/-- Embedding of `count_keyword_matches` (ml_model.py lines 328-336): one per keyword that
has at least one whole-word occurrence, regardless of how often it occurs. -/
def count_keyword_matches (text : String) (keywords : List String) : Nat :=
  keywords.countP (fun kw => hasWholeWord kw text)

def cs_keywords : List String :=
  ["python", "java", "code", "programming", "algorithm", "function",
   "variable", "loop", "array", "class", "object", "software",
   "database", "api", "html", "css", "javascript", "computer"]

def math_keywords : List String :=
  ["calculus", "derivative", "integral", "algebra", "equation",
   "solve", "calculate", "theorem", "proof", "matrix", "vector",
   "geometry", "trigonometry", "statistics", "probability"]

def bio_keywords : List String :=
  ["cell", "dna", "photosynthesis", "evolution", "organism",
   "bacteria", "virus", "protein", "gene", "biology", "species"]

def chem_keywords : List String :=
  ["atom", "molecule", "chemical", "reaction", "element",
   "compound", "bond", "acid", "base", "chemistry", "periodic"]

def phys_keywords : List String :=
  ["force", "velocity", "acceleration", "energy", "motion",
   "gravity", "wave", "electricity", "physics", "momentum"]

def eng_keywords : List String :=
  ["shakespeare", "poem", "novel", "literature", "author",
   "metaphor", "grammar", "writing", "essay", "story"]

def hist_keywords : List String :=
  ["war", "ancient", "empire", "civilization", "century",
   "revolution", "historical", "history", "president"]

def geo_keywords : List String :=
  ["capital", "country", "continent", "ocean", "mountain",
   "river", "climate", "geography", "map", "location"]

/-- The `keyword_map` dict (ml_model.py lines 371-380), in insertion order. -/
def keyword_map : List (String × List String) :=
  [("Computer Science", cs_keywords),
   ("Mathematics", math_keywords),
   ("Biology", bio_keywords),
   ("Chemistry", chem_keywords),
   ("Physics", phys_keywords),
   ("English", eng_keywords),
   ("History", hist_keywords),
   ("Geography", geo_keywords)]

/-- The `subject_scores` dict (ml_model.py lines 383-387): the dict of subjects with a
positive whole-word match count against the lowered question, in insertion
order. -/
def subject_scores (questionLower : String) : List (String × Nat) :=
  (keyword_map.map (fun p => (p.1, count_keyword_matches questionLower p.2))).filter
    (fun p => 0 < p.2)

/-- One step of Python `max(d, key=d.get)`: a strictly greater value
replaces the running best, so the first entry attaining the maximum wins. -/
def maxStep (acc q : String × Nat) : String × Nat :=
  if acc.2 < q.2 then q else acc

def maxFold (p : String × Nat) (l : List (String × Nat)) : String × Nat :=
  l.foldl maxStep p

/-- Python `max(d, key=d.get)` over an insertion-ordered dict (`none` models
the `if subject_scores:` guard being false on the empty dict). -/
def maxByFirst : List (String × Nat) → Option (String × Nat)
  | [] => none
  | p :: rest => some (maxFold p rest)

/-- Embedding of `apply_keyword_fallback` (ml_model.py lines 311-400): lower the raw
question, score every subject of the lexicon by whole-word keyword matches,
keep the positive scores, take the first maximal entry; if its count is
positive and the incoming confidence is below 0.40, override the prediction
with confidence `min(0.75, 0.50 + 0.15 × matches)`; otherwise return the
prediction unchanged. -/
def apply_keyword_fallback (question_text predicted_subject : String)
    (predicted_conf : ℚ) : String × ℚ :=
  match maxByFirst (subject_scores (pyLower question_text)) with
  | none => (predicted_subject, predicted_conf)
  | some (best_match, max_matches) =>
      if 0 < max_matches ∧ predicted_conf < 2/5 then
        (best_match, min (3/4) (1/2 + (max_matches : ℚ) * (3/20)))
      else (predicted_subject, predicted_conf)

/-! ### `MLModel.predict` and `classify_question` (ml_model.py) -/

/-- An abstract backing estimator, covering every state `MLModel.predict` can
run against (freshly trained ensemble, model loaded from disk, default-trained
model, trivial `DummyClassifier` fallback).  `label` models
`self.model.predict([t])[0]` and `proba` models
`self.model.predict_proba([t])[0]`; `Except.error` models the call raising,
`Except.ok none` models `predict_proba` returning `None`, and `Except.ok
(some ps)` the returned probability row. -/
structure Backend where
  label : String → Except Unit String
  proba : String → Except Unit (Option (List ℚ))

/-- The clamp `min(max(float(confidence), 0.0), 1.0)` (ml_model.py line 165). -/
def clamp01 (q : ℚ) : ℚ := min (max q 0) 1

/-- Python `max` over a nonempty list. -/
def listMax (p : ℚ) (ps : List ℚ) : ℚ := ps.foldl max p

/-- Embedding of `MLModel.predict` (ml_model.py lines 136-171): preprocess the input;
return the hardcoded default when the processed text is empty or its
stripped length is below 2; otherwise ask the backing model for a label and
a probability row, take the row's maximum (0.5 when the row is `None`),
clamp it into [0,1].  Any exception from the backing model is caught and
yields the default (`_get_default_prediction`); `max` of an empty row raises
and is likewise caught. -/
def predict (b : Backend) (lem : String → String) (sw : List String)
    (default_prediction : String × ℚ) (text : String) : String × ℚ :=
  if (preprocess_input lem sw text).1 = "" ∨
      (pyStrip (preprocess_input lem sw text).1).length < 2 then
    default_prediction
  else
    match b.label (preprocess_input lem sw text).1,
        b.proba (preprocess_input lem sw text).1 with
    | Except.ok lab, Except.ok none => (lab, clamp01 (1/2))
    | Except.ok _, Except.ok (some []) => default_prediction
    | Except.ok lab, Except.ok (some (p :: ps)) => (lab, clamp01 (listMax p ps))
    | _, _ => default_prediction

/-- The `_get_default_prediction` value for the subject model (ml_model.py 173-178). -/
def subject_default : String × ℚ := ("Mathematics", 1/2)

/-- The `_get_default_prediction` value for the difficulty model. -/
def difficulty_default : String × ℚ := ("Medium", 1/2)

/-- The subject classifier's `predict`. -/
def subject_predict (b : Backend) (lem : String → String) (sw : List String)
    (text : String) : String × ℚ :=
  predict b lem sw subject_default text

/-- The difficulty classifier's `predict`. -/
def difficulty_predict (b : Backend) (lem : String → String) (sw : List String)
    (text : String) : String × ℚ :=
  predict b lem sw difficulty_default text

/-- The trained label set of the subject model (ml_model.py lines 49-52). -/
def subjects : List String :=
  ["Mathematics", "Physics", "Chemistry", "Biology",
   "English", "History", "Geography"]

/-- The dict returned by `classify_question`: the four classification fields,
plus `status` which is `some "error"` exactly when the source adds the
`'status': 'error'` key in its `except` branch. -/
structure ClassResult where
  status : Option String
  subject : String
  subject_confidence : ℚ
  difficulty : String
  difficulty_confidence : ℚ
  deriving DecidableEq, Repr

/-- The degraded dict built in `classify_question`'s `except` branch
(ml_model.py lines 300-309). -/
def error_result : ClassResult :=
  { status := some "error", subject := "General", subject_confidence := 1/2,
    difficulty := "Medium", difficulty_confidence := 1/2 }

/-- Embedding of `classify_question` (ml_model.py lines 275-309) over two fallible
per-task predictors: predict subject then difficulty; apply the keyword
fallback when the subject confidence is below 0.40; if either prediction
raises, the `except` branch returns the degraded `error_result`. -/
def classify_question_with (sp dp : String → Except Unit (String × ℚ))
    (question_text : String) : ClassResult :=
  match sp question_text with
  | Except.error _ => error_result
  | Except.ok sPair =>
      match dp question_text with
      | Except.error _ => error_result
      | Except.ok dPair =>
          let sr := if sPair.2 < 2/5 then
                      apply_keyword_fallback question_text sPair.1 sPair.2
                    else sPair
          { status := none, subject := sr.1, subject_confidence := sr.2,
            difficulty := dPair.1, difficulty_confidence := dPair.2 }

/-- Instantiation of `classify_question` as the source wires it: both per-task
predictions come from `MLModel.predict`, which never raises (it catches
every backend exception internally). -/
def classify_question (sb db : Backend) (lem : String → String)
    (sw : List String) (question_text : String) : ClassResult :=
  classify_question_with
    (fun t => Except.ok (subject_predict sb lem sw t))
    (fun t => Except.ok (difficulty_predict db lem sw t))
    question_text

/-! ### `MLModel.train` / `_train_default_model` (ml_model.py lines 64-134
and 217-259)

`train` wraps the ensemble fit in `try/except`; on failure it calls
`_train_default_model`, which in turn wraps a recursive `self.train` on the
bundled sample corpus in `try/except`, with a direct `DummyClassifier` fit in
its `except` branch.  The mutual recursion is modelled with a fuel
parameter: `none` means the recursion did not terminate within the given
fuel (the idealized semantics of unbounded mutual recursion), `some
(Except.error _)` means an exception escaped, `some (Except.ok o)` a normal
return with the resulting backing model `o`.  `fit texts labels = false`
models `self.model.fit(texts, labels)` raising; `dummyOk = false` models the
`DummyClassifier` fit raising. -/

inductive TrainOutcome where
  | trained
  | defaultTrained
  | trivialFallback
  deriving DecidableEq, Repr

mutual

/-- Embedding of `MLModel.train`: fit the ensemble; on an exception, delegate to
`_train_default_model` (whose own exception, if any, escapes `train`). -/
def train (fit : List String → List String → Bool) (dummyOk : Bool)
    (sampleT sampleL : List String) :
    Nat → List String → List String → Option (Except Unit TrainOutcome)
  | 0, _, _ => none
  | n + 1, texts, labels =>
      if fit texts labels then some (Except.ok TrainOutcome.trained)
      else
        match train_default_model fit dummyOk sampleT sampleL n with
        | none => none
        | some (Except.ok o) => some (Except.ok o)
        | some (Except.error e) => some (Except.error e)

/-- Embedding of `_train_default_model`: try `self.train` on the bundled samples; only if
that call raises, fit the trivial `DummyClassifier` pipeline (outside any
`try`, so its failure raises out of `_train_default_model`). -/
def train_default_model (fit : List String → List String → Bool)
    (dummyOk : Bool) (sampleT sampleL : List String) :
    Nat → Option (Except Unit TrainOutcome)
  | 0 => none
  | n + 1 =>
      match train fit dummyOk sampleT sampleL n sampleT sampleL with
      | none => none
      | some (Except.ok o) =>
          some (Except.ok
            (if o = TrainOutcome.trained then TrainOutcome.defaultTrained else o))
      | some (Except.error _) =>
          if dummyOk then some (Except.ok TrainOutcome.trivialFallback)
          else some (Except.error ())

end

/-- The bundled subject sample corpus (_train_default_model, lines 222-234). -/
def sample_texts_subject : List String :=
  ["calculate derivative integrate solve equation",
   "velocity acceleration force motion physics",
   "atomic molecular chemical reaction element",
   "photosynthesis cell mitosis biology organism",
   "literature poem novel story character",
   "historical event ancient civilization empire",
   "geographic location map coordinates climate"]

def sample_labels_subject : List String :=
  ["Mathematics", "Physics", "Chemistry",
   "Biology", "English", "History", "Geography"]

/-! ### Specification-side formulations of the keyword fallback (for C1) -/

/-- Formulated from the words of claim C1: count whole-word matches for each
subject of the lexicon, select the subject with the maximum count (first
inserted wins ties) and, whenever the best count is positive, override the
prediction with confidence `min(0.75, 0.50 + 0.15 × matchCount)` — with no
condition on the incoming confidence.  Used only to compare against the
source's `apply_keyword_fallback`. -/
def fallback_spec_claimed (question_text predicted_subject : String)
    (predicted_conf : ℚ) : String × ℚ :=
  match maxByFirst
      (keyword_map.map
        (fun p => (p.1, count_keyword_matches (pyLower question_text) p.2))) with
  | none => (predicted_subject, predicted_conf)
  | some (best, m) =>
      if 0 < m then (best, min (3/4) (1/2 + (m : ℚ) * (3/20)))
      else (predicted_subject, predicted_conf)

/-- The amended formulation of claim C1: as `fallback_spec_claimed`, except
that the override additionally requires the incoming confidence to be below
0.40 (the function re-checks the trigger condition internally). -/
def fallback_spec_amended (question_text predicted_subject : String)
    (predicted_conf : ℚ) : String × ℚ :=
  match maxByFirst
      (keyword_map.map
        (fun p => (p.1, count_keyword_matches (pyLower question_text) p.2))) with
  | none => (predicted_subject, predicted_conf)
  | some (best, m) =>
      if 0 < m ∧ predicted_conf < 2/5 then
        (best, min (3/4) (1/2 + (m : ℚ) * (3/20)))
      else (predicted_subject, predicted_conf)

/-! ### Helper lemmas: Python `max` over the scores dict versus filtering
out the zero counts -/

lemma maxFold_cons (p q : String × Nat) (l : List (String × Nat)) :
    maxFold p (q :: l) = maxFold (maxStep p q) l := rfl

lemma maxStep_of_zero (p q : String × Nat) (hq : q.2 = 0) :
    maxStep p q = p := by
  simp [maxStep, hq]

lemma maxStep_of_pos_zero (p q : String × Nat) (hp : p.2 = 0) (hq : 0 < q.2) :
    maxStep p q = q := by
  simp [maxStep, hp, hq]

/-- Filtering the zero-valued entries out of the tail never changes the
running maximum, because a zero value can never strictly exceed the
accumulator. -/
lemma maxFold_filter_pos (l : List (String × Nat)) :
    ∀ p, maxFold p (l.filter (fun q => 0 < q.2)) = maxFold p l := by
  induction l with
  | nil => intro p; rfl
  | cons q l ih =>
      intro p
      by_cases hq : 0 < q.2
      · simp only [List.filter_cons, hq, decide_True, if_true, maxFold_cons]
        exact ih (maxStep p q)
      · have hq0 : q.2 = 0 := Nat.eq_zero_of_not_pos hq
        simp only [List.filter_cons, hq, decide_False, if_false, maxFold_cons,
          maxStep_of_zero p q hq0]
        exact ih p

/-- Two zero-valued seeds either fold to the same result or both folds end
with value zero. -/
lemma maxFold_zero_seed (l : List (String × Nat)) :
    ∀ p q, p.2 = 0 → q.2 = 0 →
      maxFold p l = maxFold q l ∨ ((maxFold p l).2 = 0 ∧ (maxFold q l).2 = 0) := by
  induction l with
  | nil => intro p q hp hq; exact Or.inr ⟨hp, hq⟩
  | cons r l ih =>
      intro p q hp hq
      by_cases hr : 0 < r.2
      · left
        simp only [maxFold_cons, maxStep_of_pos_zero p r hp hr,
          maxStep_of_pos_zero q r hq hr]
      · have hr0 : r.2 = 0 := Nat.eq_zero_of_not_pos hr
        simp only [maxFold_cons, maxStep_of_zero p r hr0, maxStep_of_zero q r hr0]
        exact ih p q hp hq

/-- The fold value never drops below the seed's value. -/
lemma le_maxFold (l : List (String × Nat)) :
    ∀ p, p.2 ≤ (maxFold p l).2 := by
  induction l with
  | nil => intro p; exact le_rfl
  | cons q l ih =>
      intro p
      rw [maxFold_cons]
      refine le_trans ?_ (ih (maxStep p q))
      unfold maxStep
      split
      · exact le_of_lt (by assumption)
      · exact le_rfl

/-- Python `max` over the positive-count dict agrees with Python `max` over
all counts whenever the overall maximum is positive, and the positive-count
dict is empty iff the overall maximum is zero. -/
lemma maxByFirst_filter_pos (l : List (String × Nat)) :
    maxByFirst (l.filter (fun q => 0 < q.2)) =
      match maxByFirst l with
      | none => none
      | some r => if 0 < r.2 then some r else none := by
  induction l with
  | nil => rfl
  | cons p l ih =>
      by_cases hp : 0 < p.2
      · have hr : 0 < (maxFold p l).2 := lt_of_lt_of_le hp (le_maxFold l p)
        simp only [List.filter_cons, hp, decide_True, if_true, maxByFirst,
          maxFold_filter_pos l p, hr, if_pos]
      · have hp0 : p.2 = 0 := Nat.eq_zero_of_not_pos hp
        have hfc : (p :: l).filter (fun q => 0 < q.2) =
            l.filter (fun q => 0 < q.2) := by
          simp [List.filter_cons, hp]
        rw [hfc, ih]
        cases l with
        | nil => simp [maxByFirst, maxFold, hp0]
        | cons q l' =>
            by_cases hq : 0 < q.2
            · simp only [maxByFirst, maxFold_cons, maxStep_of_pos_zero p q hp0 hq]
            · have hq0 : q.2 = 0 := Nat.eq_zero_of_not_pos hq
              simp only [maxByFirst, maxFold_cons, maxStep_of_zero p q hq0]
              rcases maxFold_zero_seed l' p q hp0 hq0 with h | ⟨h1, h2⟩
              · rw [h]
              · rw [h1, h2]
                simp

/-- The implemented fallback agrees everywhere with the amended
specification: the zero-count filtering of `subject_scores` followed by
Python `max` is the same as taking the first maximal count over the whole
lexicon and requiring it to be positive, and the override additionally
requires the incoming confidence to be below 0.40. -/
lemma apply_keyword_fallback_eq_amended (q s : String) (c : ℚ) :
    apply_keyword_fallback q s c = fallback_spec_amended q s c := by
  unfold apply_keyword_fallback fallback_spec_amended subject_scores
  rw [maxByFirst_filter_pos]
  cases hL : maxByFirst
      (keyword_map.map
        (fun p => (p.1, count_keyword_matches (pyLower q) p.2))) with
  | none => rfl
  | some r =>
      obtain ⟨b, m⟩ := r
      by_cases hm : 0 < m
      · simp [hm]
      · simp [hm]

/-- C1, counterexample: the claim omits the internal re-check of the
trigger condition `predicted_conf < 0.40`.  On the question `"capital"` with
confidence 0.9 the best match count is 1 > 0, so the claimed behaviour
overrides to `("Geography", 0.65)`, but `apply_keyword_fallback` returns the
original prediction unchanged. -/
theorem C1_counterexample :
    apply_keyword_fallback "capital" "Mathematics" (9/10) =
      ("Mathematics", 9/10) ∧
    fallback_spec_claimed "capital" "Mathematics" (9/10) =
      ("Geography", 13/20) := by
  constructor
  · have h : maxByFirst (subject_scores (pyLower "capital")) =
        some ("Geography", 1) := by decide
    rw [apply_keyword_fallback, h]
    norm_num
  · have h : maxByFirst
        (keyword_map.map
          (fun p => (p.1, count_keyword_matches (pyLower "capital") p.2))) =
        some ("Geography", 1) := by decide
    rw [fallback_spec_claimed, h]
    norm_num

/-- C1, amended: `apply_keyword_fallback` counts whole-word case-insensitive
matches per subject, selects the subject with the maximum count (first
inserted wins ties) and, if the best count is positive AND the incoming
confidence is below 0.40, overrides with confidence
`min(0.75, 0.50 + 0.15 × matchCount)`; otherwise it returns the original
pair unchanged.  In particular `"what is the capital of France"` with any
confidence below 0.40 yields `("Geography", 0.65)`. -/
theorem C1_keyword_fallback :
    (∀ q s : String, ∀ c : ℚ,
      apply_keyword_fallback q s c = fallback_spec_amended q s c) ∧
    (∀ s : String, ∀ c : ℚ, c < 2/5 →
      apply_keyword_fallback "what is the capital of France" s c =
        ("Geography", 13/20)) := by
  refine ⟨apply_keyword_fallback_eq_amended, fun s c hc => ?_⟩
  have h : maxByFirst
      (subject_scores (pyLower "what is the capital of France")) =
      some ("Geography", 1) := by decide
  rw [apply_keyword_fallback, h]
  norm_num [hc]

/-- C1 witness: the amended theorem applied at base confidence 0.30. -/
theorem C1_keyword_fallback_witness :
    apply_keyword_fallback "what is the capital of France" "Physics" (3/10) =
      ("Geography", 13/20) :=
  C1_keyword_fallback.2 "Physics" (3/10) (by norm_num)

/-- Branch lemma: when the scores dict is empty the fallback returns the
prediction unchanged. -/
lemma akf_of_none (q s : String) (c : ℚ)
    (hL : maxByFirst (subject_scores (pyLower q)) = none) :
    apply_keyword_fallback q s c = (s, c) := by
  unfold apply_keyword_fallback
  rw [hL]

/-- Branch lemma: positive best count and low confidence trigger the
override. -/
lemma akf_override (q s : String) (c : ℚ) (b : String) (m : Nat)
    (hL : maxByFirst (subject_scores (pyLower q)) = some (b, m))
    (hm : 0 < m) (hc : c < 2/5) :
    apply_keyword_fallback q s c =
      (b, min (3/4) (1/2 + (m : ℚ) * (3/20))) := by
  unfold apply_keyword_fallback
  rw [hL]
  exact if_pos ⟨hm, hc⟩

/-- Branch lemma: a failed trigger condition leaves the prediction alone. -/
lemma akf_unchanged (q s : String) (c : ℚ) (b : String) (m : Nat)
    (hL : maxByFirst (subject_scores (pyLower q)) = some (b, m))
    (hcond : ¬(0 < m ∧ c < 2/5)) :
    apply_keyword_fallback q s c = (s, c) := by
  unfold apply_keyword_fallback
  rw [hL]
  exact if_neg hcond

/-- The synthesized override confidence is 0.65 for one match and 0.75 for
two or more. -/
lemma override_conf_values (m : Nat) (hm : 0 < m) :
    min (3/4 : ℚ) (1/2 + (m : ℚ) * (3/20)) = 13/20 ∨
    min (3/4 : ℚ) (1/2 + (m : ℚ) * (3/20)) = 3/4 := by
  rcases Nat.lt_or_ge m 2 with hm2 | hm2
  · interval_cases m
    left; norm_num
  · right
    have h2 : (2 : ℚ) ≤ (m : ℚ) := by exact_mod_cast hm2
    rw [min_eq_left (by linarith)]

/-- C10: each keyword contributes at most one to a subject's match count no
matter how often it occurs (three occurrences of "capital" still count 1,
and a count never exceeds the number of keywords), and whenever
`apply_keyword_fallback` changes the prediction, the synthesized confidence
is exactly 0.65 or 0.75, the incoming confidence was below 0.40, and the new
confidence is strictly greater than the old one. -/
theorem C10_match_count_override :
    (count_keyword_matches (pyLower "capital capital capital") geo_keywords
      = 1) ∧
    (∀ (t : String) (kws : List String),
      count_keyword_matches t kws ≤ kws.length) ∧
    (∀ (q s : String) (c : ℚ), apply_keyword_fallback q s c ≠ (s, c) →
      ((apply_keyword_fallback q s c).2 = 13/20 ∨
        (apply_keyword_fallback q s c).2 = 3/4) ∧
      c < 2/5 ∧ c < (apply_keyword_fallback q s c).2) := by
  refine ⟨by decide, fun t kws => List.countP_le_length _, fun q s c hne => ?_⟩
  cases hL : maxByFirst (subject_scores (pyLower q)) with
  | none => exact absurd (akf_of_none q s c hL) hne
  | some r =>
      obtain ⟨b, m⟩ := r
      by_cases hcond : 0 < m ∧ c < 2/5
      · obtain ⟨hm, hc⟩ := hcond
        rw [akf_override q s c b m hL hm hc]
        refine ⟨override_conf_values m hm, hc, ?_⟩
        rcases override_conf_values m hm with h | h <;> rw [h] <;> linarith
      · exact absurd (akf_unchanged q s c b m hL hcond) hne

/-- C10 witness: `"capital"` at confidence 0.30 changes the prediction, and
the synthesized confidence 0.65 is one of the two possible values and
exceeds 0.30. -/
theorem C10_match_count_override_witness :
    ((apply_keyword_fallback "capital" "Mathematics" (3/10)).2 = 13/20 ∨
      (apply_keyword_fallback "capital" "Mathematics" (3/10)).2 = 3/4) ∧
    (3/10 : ℚ) < 2/5 ∧
    (3/10 : ℚ) < (apply_keyword_fallback "capital" "Mathematics" (3/10)).2 := by
  have hval : apply_keyword_fallback "capital" "Mathematics" (3/10) =
      ("Geography", 13/20) := by
    have h : maxByFirst (subject_scores (pyLower "capital")) =
        some ("Geography", 1) := by decide
    rw [apply_keyword_fallback, h]
    norm_num
  exact C10_match_count_override.2.2 "capital" "Mathematics" (3/10)
    (by rw [hval]; intro h; simpa using congrArg Prod.fst h)

/-- A backend whose estimator returns a fixed label and a one-element
probability row; used to instantiate the abstract estimator concretely. -/
def constBackend (lab : String) (p : ℚ) : Backend :=
  { label := fun _ => Except.ok lab, proba := fun _ => Except.ok (some [p]) }

/-- Evaluation of `predict` against a constant backend when the processed
text passes the length guard. -/
lemma predict_constBackend (lab : String) (p : ℚ) (lem : String → String)
    (sw : List String) (dflt : String × ℚ) (text : String)
    (hproc : ¬((preprocess_input lem sw text).1 = "" ∨
      (pyStrip (preprocess_input lem sw text).1).length < 2)) :
    predict (constBackend lab p) lem sw dflt text = (lab, clamp01 p) := by
  unfold predict
  rw [if_neg hproc]
  rfl

/-- C9: on the question `"python"` with a low-confidence subject estimator,
`classify_question` returns the subject `"Computer Science"`, a label
outside the trained subject set; the fallback lexicon has eight entries and
contains Computer Science. -/
theorem C9_computer_science_label :
    (classify_question (constBackend "Mathematics" (3/10))
        (constBackend "Medium" (3/10)) id [] "python").subject =
      "Computer Science" ∧
    "Computer Science" ∉ subjects ∧
    keyword_map.length = 8 ∧
    ("Computer Science", cs_keywords) ∈ keyword_map := by
  refine ⟨?_, by decide, rfl, by simp [keyword_map]⟩
  have hproc : ¬((preprocess_input id [] "python").1 = "" ∨
      (pyStrip (preprocess_input id [] "python").1).length < 2) := by decide
  have hs : subject_predict (constBackend "Mathematics" (3/10)) id [] "python"
      = ("Mathematics", 3/10) := by
    rw [subject_predict, predict_constBackend _ _ _ _ _ _ hproc]
    norm_num [clamp01]
  have hd : difficulty_predict (constBackend "Medium" (3/10)) id [] "python"
      = ("Medium", 3/10) := by
    rw [difficulty_predict, predict_constBackend _ _ _ _ _ _ hproc]
    norm_num [clamp01]
  have hakf : apply_keyword_fallback "python" "Mathematics" (3/10) =
      ("Computer Science", min (3/4) (1/2 + (1 : ℚ) * (3/20))) := by
    have hL : maxByFirst (subject_scores (pyLower "python")) =
        some ("Computer Science", 1) := by decide
    exact akf_override _ _ _ _ _ hL Nat.one_pos (by norm_num)
  simp only [classify_question, classify_question_with, hs, hd]
  norm_num [hakf]

/-- Unfolding lemma: the classification dict assembled by
`classify_question` in the non-raising path, field by field. -/
lemma classify_question_fields (sb db : Backend) (lem : String → String)
    (sw : List String) (q : String) :
    classify_question sb db lem sw q =
      { status := none,
        subject := (if (subject_predict sb lem sw q).2 < 2/5 then
            apply_keyword_fallback q (subject_predict sb lem sw q).1
              (subject_predict sb lem sw q).2
          else subject_predict sb lem sw q).1,
        subject_confidence := (if (subject_predict sb lem sw q).2 < 2/5 then
            apply_keyword_fallback q (subject_predict sb lem sw q).1
              (subject_predict sb lem sw q).2
          else subject_predict sb lem sw q).2,
        difficulty := (difficulty_predict db lem sw q).1,
        difficulty_confidence := (difficulty_predict db lem sw q).2 } := rfl

/-- C2: in `classify_question` the keyword fallback is applied to the
subject prediction exactly when the subject confidence is strictly below
0.40; at or above the threshold the classifier's subject prediction is
returned untouched, and the difficulty prediction is never modified by the
fallback in either case. -/
theorem C2_fallback_trigger (sb db : Backend) (lem : String → String)
    (sw : List String) (q : String) :
    ((subject_predict sb lem sw q).2 < 2/5 →
      ((classify_question sb db lem sw q).subject,
        (classify_question sb db lem sw q).subject_confidence) =
        apply_keyword_fallback q (subject_predict sb lem sw q).1
          (subject_predict sb lem sw q).2) ∧
    (¬(subject_predict sb lem sw q).2 < 2/5 →
      ((classify_question sb db lem sw q).subject,
        (classify_question sb db lem sw q).subject_confidence) =
        subject_predict sb lem sw q) ∧
    (classify_question sb db lem sw q).difficulty =
      (difficulty_predict db lem sw q).1 ∧
    (classify_question sb db lem sw q).difficulty_confidence =
      (difficulty_predict db lem sw q).2 := by
  rw [classify_question_fields]
  by_cases h : (subject_predict sb lem sw q).2 < 2/5
  · rw [if_pos h]
    exact ⟨fun _ => Prod.mk.eta, fun h2 => absurd h h2, rfl, rfl⟩
  · rw [if_neg h]
    exact ⟨fun h2 => absurd h2 h, fun _ => Prod.mk.eta, rfl, rfl⟩

/-- C2 witness: both branches of the trigger dichotomy exercised on concrete
backends — a 0.90-confidence subject prediction is passed through unchanged,
while a 0.30-confidence prediction on `"python"` goes through the fallback. -/
theorem C2_fallback_trigger_witness :
    ((classify_question (constBackend "Mathematics" (9/10))
        (constBackend "Medium" (1/2)) id [] "python").subject,
      (classify_question (constBackend "Mathematics" (9/10))
        (constBackend "Medium" (1/2)) id [] "python").subject_confidence) =
      subject_predict (constBackend "Mathematics" (9/10)) id [] "python" ∧
    ((classify_question (constBackend "Mathematics" (3/10))
        (constBackend "Medium" (1/2)) id [] "python").subject,
      (classify_question (constBackend "Mathematics" (3/10))
        (constBackend "Medium" (1/2)) id [] "python").subject_confidence) =
      apply_keyword_fallback "python"
        (subject_predict (constBackend "Mathematics" (3/10)) id [] "python").1
        (subject_predict (constBackend "Mathematics" (3/10)) id [] "python").2
    := by
  have hproc : ¬((preprocess_input id [] "python").1 = "" ∨
      (pyStrip (preprocess_input id [] "python").1).length < 2) := by decide
  have h9 : subject_predict (constBackend "Mathematics" (9/10)) id [] "python"
      = ("Mathematics", 9/10) := by
    rw [subject_predict, predict_constBackend _ _ _ _ _ _ hproc]
    norm_num [clamp01]
  have h3 : subject_predict (constBackend "Mathematics" (3/10)) id [] "python"
      = ("Mathematics", 3/10) := by
    rw [subject_predict, predict_constBackend _ _ _ _ _ _ hproc]
    norm_num [clamp01]
  constructor
  · exact (C2_fallback_trigger (constBackend "Mathematics" (9/10))
      (constBackend "Medium" (1/2)) id [] "python").2.1
      (by rw [h9]; norm_num)
  · exact (C2_fallback_trigger (constBackend "Mathematics" (3/10))
      (constBackend "Medium" (1/2)) id [] "python").1
      (by rw [h3]; norm_num)

/-- The clamp `min(max(c, 0.0), 1.0)` always lands in [0,1]. -/
lemma clamp01_bounds (q : ℚ) : 0 ≤ clamp01 q ∧ clamp01 q ≤ 1 :=
  ⟨le_min (le_max_right q 0) zero_le_one, min_le_right _ _⟩

/-- Every confidence produced by `predict` lies in [0,1], provided the
hardcoded default does. -/
lemma predict_conf_bounds (b : Backend) (lem : String → String)
    (sw : List String) (dflt : String × ℚ) (t : String)
    (h0 : 0 ≤ dflt.2) (h1 : dflt.2 ≤ 1) :
    0 ≤ (predict b lem sw dflt t).2 ∧ (predict b lem sw dflt t).2 ≤ 1 := by
  unfold predict
  split
  · exact ⟨h0, h1⟩
  · split
    · exact clamp01_bounds _
    · exact ⟨h0, h1⟩
    · exact clamp01_bounds _
    · exact ⟨h0, h1⟩

/-- Every confidence produced by the keyword fallback lies in [0,1],
provided the incoming one does. -/
lemma akf_conf_bounds (q s : String) (c : ℚ) (h0 : 0 ≤ c) (h1 : c ≤ 1) :
    0 ≤ (apply_keyword_fallback q s c).2 ∧
      (apply_keyword_fallback q s c).2 ≤ 1 := by
  cases hL : maxByFirst (subject_scores (pyLower q)) with
  | none => rw [akf_of_none q s c hL]; exact ⟨h0, h1⟩
  | some r =>
      obtain ⟨b, m⟩ := r
      by_cases hcond : 0 < m ∧ c < 2/5
      · rw [akf_override q s c b m hL hcond.1 hcond.2]
        have hm0 : (0 : ℚ) ≤ (m : ℚ) := Nat.cast_nonneg m
        exact ⟨le_min (by norm_num) (by linarith),
          le_trans (min_le_left _ _) (by norm_num)⟩
      · rw [akf_unchanged q s c b m hL hcond]; exact ⟨h0, h1⟩

/-- C3: for every backing model state and every input, the confidence
returned by `predict` lies in [0,1] for both the subject and the difficulty
task, and both confidence values returned by `classify_question` lie in
[0,1]. -/
theorem C3_confidence_bounds (b sb db : Backend) (lem : String → String)
    (sw : List String) (t : String) :
    (0 ≤ (subject_predict b lem sw t).2 ∧ (subject_predict b lem sw t).2 ≤ 1) ∧
    (0 ≤ (difficulty_predict b lem sw t).2 ∧
      (difficulty_predict b lem sw t).2 ≤ 1) ∧
    (0 ≤ (classify_question sb db lem sw t).subject_confidence ∧
      (classify_question sb db lem sw t).subject_confidence ≤ 1) ∧
    (0 ≤ (classify_question sb db lem sw t).difficulty_confidence ∧
      (classify_question sb db lem sw t).difficulty_confidence ≤ 1) := by
  have hs := predict_conf_bounds sb lem sw subject_default t
    (by norm_num [subject_default]) (by norm_num [subject_default])
  have hd := predict_conf_bounds db lem sw difficulty_default t
    (by norm_num [difficulty_default]) (by norm_num [difficulty_default])
  refine ⟨predict_conf_bounds b lem sw subject_default t
      (by norm_num [subject_default]) (by norm_num [subject_default]),
    predict_conf_bounds b lem sw difficulty_default t
      (by norm_num [difficulty_default]) (by norm_num [difficulty_default]),
    ?_, ?_⟩
  · rw [classify_question_fields]
    by_cases h : (subject_predict sb lem sw t).2 < 2/5
    · simp only [if_pos h]
      exact akf_conf_bounds t (subject_predict sb lem sw t).1
        (subject_predict sb lem sw t).2 hs.1 hs.2
    · simp only [if_neg h]
      exact hs
  · rw [classify_question_fields]
    exact hd

/-- C5: if either per-task prediction raises, `classify_question`'s
`except` branch returns the degraded result with subject `"General"` and
both confidences 0.5, instead of raising. -/
theorem C5_total_failure_degraded (sp dp : String → Except Unit (String × ℚ))
    (q : String)
    (h : (∃ e, sp q = Except.error e) ∨ (∃ e, dp q = Except.error e)) :
    (classify_question_with sp dp q).subject = "General" ∧
    (classify_question_with sp dp q).subject_confidence = 1/2 ∧
    (classify_question_with sp dp q).difficulty_confidence = 1/2 := by
  unfold classify_question_with
  rcases h with ⟨e, he⟩ | ⟨e, he⟩
  · rw [he]
    exact ⟨rfl, rfl, rfl⟩
  · cases hs : sp q with
    | error e2 => exact ⟨rfl, rfl, rfl⟩
    | ok p =>
        obtain ⟨s, sc⟩ := p
        rw [he]
        exact ⟨rfl, rfl, rfl⟩

/-- C5 witness: a subject predictor that raises produces the degraded
result. -/
theorem C5_total_failure_degraded_witness :
    (classify_question_with (fun _ => Except.error ())
        (fun _ => Except.ok ("Medium", 1/2)) "x").subject = "General" ∧
    (classify_question_with (fun _ => Except.error ())
        (fun _ => Except.ok ("Medium", 1/2)) "x").subject_confidence = 1/2 ∧
    (classify_question_with (fun _ => Except.error ())
        (fun _ => Except.ok ("Medium", 1/2)) "x").difficulty_confidence = 1/2 :=
  C5_total_failure_degraded _ _ "x" (Or.inl ⟨(), rfl⟩)

/-! ### Character-level facts -/

lemma toNat_charOfNat (n : Nat) (h : n < 55296) : (Char.ofNat n).toNat = n := by
  have hv : n.isValidChar := Or.inl h
  simp only [Char.ofNat, hv, dif_pos, Char.ofNatAux, Char.toNat]
  simp [UInt32.toNat, UInt32.ofNat', BitVec.toNat_ofNat]

lemma letter_not_space (c : Char) (h : isAsciiLetter c = true) :
    pyIsSpace c = false := by
  simp only [isAsciiLetter, Bool.or_eq_true, Bool.and_eq_true,
    decide_eq_true_eq] at h
  simp only [pyIsSpace, Bool.or_eq_false_iff, beq_eq_false_iff_ne, ne_eq]
  omega

lemma lowerAlpha_not_space (c : Char) (h : isLowerAlpha c = true) :
    pyIsSpace c = false := by
  simp only [isLowerAlpha, Bool.and_eq_true, decide_eq_true_eq] at h
  simp only [pyIsSpace, Bool.or_eq_false_iff, beq_eq_false_iff_ne, ne_eq]
  omega

lemma lowerAlpha_isLetter (c : Char) (h : isLowerAlpha c = true) :
    isAsciiLetter c = true := by
  simp only [isLowerAlpha, Bool.and_eq_true, decide_eq_true_eq] at h
  simp only [isAsciiLetter, Bool.or_eq_true, Bool.and_eq_true,
    decide_eq_true_eq]
  omega

lemma isLowerAlpha_asciiLower (c : Char) (h : isAsciiLetter c = true) :
    isLowerAlpha (asciiLower c) = true := by
  simp only [isAsciiLetter, Bool.or_eq_true, Bool.and_eq_true,
    decide_eq_true_eq] at h
  unfold asciiLower
  rcases h with h | h
  · rw [if_pos (by simp [h.1, h.2])]
    have ht : (Char.ofNat (c.toNat + 32)).toNat = c.toNat + 32 :=
      toNat_charOfNat _ (by omega)
    simp only [isLowerAlpha, ht, Bool.and_eq_true, decide_eq_true_eq]
    omega
  · rw [if_neg (by simp; omega)]
    simp only [isLowerAlpha, Bool.and_eq_true, decide_eq_true_eq]
    omega

/-- Python `str.lower` fixes characters that are already lowercase letters or
whitespace. -/
lemma asciiLower_fix (c : Char)
    (h : isLowerAlpha c = true ∨ pyIsSpace c = true) : asciiLower c = c := by
  unfold asciiLower
  rcases h with h | h
  · simp only [isLowerAlpha, Bool.and_eq_true, decide_eq_true_eq] at h
    rw [if_neg (by simp; omega)]
  · simp only [pyIsSpace, Bool.or_eq_true, beq_iff_eq] at h
    rw [if_neg (by simp; omega)]

lemma asciiLower_not_space (c : Char) (h : isAsciiLetter c = true) :
    pyIsSpace (asciiLower c) = false :=
  lowerAlpha_not_space _ (isLowerAlpha_asciiLower c h)

/-! ### Memberships through the cleaning stages: every stage only deletes
characters (whitespace collapsing may introduce `' '`) -/

lemma mem_urlCut {c : Char} : ∀ {l : List Char}, c ∈ urlCut l → c ∈ l := by
  intro l
  induction l with
  | nil => simp [urlCut]
  | cons d rest ih =>
      simp only [urlCut]
      split
      · intro h; exact absurd h (List.not_mem_nil c)
      · intro h
        rcases List.mem_cons.mp h with h | h
        · exact List.mem_cons.mpr (Or.inl h)
        · exact List.mem_cons.mpr (Or.inr (ih h))

lemma mem_stripUrlsAux {c : Char} :
    ∀ (l cur : List Char), c ∈ stripUrlsAux cur l → c ∈ cur ∨ c ∈ l := by
  intro l
  induction l with
  | nil => intro cur h; exact Or.inl (mem_urlCut h)
  | cons d rest ih =>
      intro cur h
      by_cases hd : pyIsSpace d
      · rw [stripUrlsAux, if_pos hd] at h
        rcases List.mem_append.mp h with h | h
        · exact Or.inl (mem_urlCut h)
        · rcases List.mem_cons.mp h with h | h
          · exact Or.inr (List.mem_cons.mpr (Or.inl h))
          · rcases ih [] h with h | h
            · exact absurd h (List.not_mem_nil c)
            · exact Or.inr (List.mem_cons.mpr (Or.inr h))
      · rw [stripUrlsAux, if_neg hd] at h
        rcases ih (cur ++ [d]) h with h | h
        · rcases List.mem_append.mp h with h | h
          · exact Or.inl h
          · simp only [List.mem_singleton] at h
            exact Or.inr (List.mem_cons.mpr (Or.inl h))
        · exact Or.inr (List.mem_cons.mpr (Or.inr h))

lemma mem_emitRun {c : Char} {run : List Char} (h : c ∈ emitRun run) :
    c ∈ run := by
  unfold emitRun at h
  split at h
  · exact absurd h (List.not_mem_nil c)
  · exact h

lemma mem_stripEmailsAux {c : Char} :
    ∀ (l cur : List Char), c ∈ stripEmailsAux cur l → c ∈ cur ∨ c ∈ l := by
  intro l
  induction l with
  | nil => intro cur h; exact Or.inl (mem_emitRun h)
  | cons d rest ih =>
      intro cur h
      by_cases hd : pyIsSpace d
      · rw [stripEmailsAux, if_pos hd] at h
        rcases List.mem_append.mp h with h | h
        · exact Or.inl (mem_emitRun h)
        · rcases List.mem_cons.mp h with h | h
          · exact Or.inr (List.mem_cons.mpr (Or.inl h))
          · rcases ih [] h with h | h
            · exact absurd h (List.not_mem_nil c)
            · exact Or.inr (List.mem_cons.mpr (Or.inr h))
      · rw [stripEmailsAux, if_neg hd] at h
        rcases ih (cur ++ [d]) h with h | h
        · rcases List.mem_append.mp h with h | h
          · exact Or.inl h
          · simp only [List.mem_singleton] at h
            exact Or.inr (List.mem_cons.mpr (Or.inl h))
        · exact Or.inr (List.mem_cons.mpr (Or.inr h))

lemma mem_collapseWsAux {c : Char} :
    ∀ (l : List Char) (b : Bool), c ∈ collapseWsAux b l →
      c = ' ' ∨ (c ∈ l ∧ pyIsSpace c = false) := by
  intro l
  induction l with
  | nil => intro b h; exact absurd h (List.not_mem_nil c)
  | cons d rest ih =>
      intro b h
      by_cases hd : pyIsSpace d
      · rw [collapseWsAux, if_pos hd] at h
        by_cases hb : b
        · rw [if_pos hb] at h
          rcases ih true h with h | ⟨h1, h2⟩
          · exact Or.inl h
          · exact Or.inr ⟨List.mem_cons.mpr (Or.inr h1), h2⟩
        · rw [if_neg hb] at h
          rcases List.mem_cons.mp h with h | h
          · exact Or.inl h
          · rcases ih true h with h | ⟨h1, h2⟩
            · exact Or.inl h
            · exact Or.inr ⟨List.mem_cons.mpr (Or.inr h1), h2⟩
      · rw [collapseWsAux, if_neg hd] at h
        rcases List.mem_cons.mp h with h | h
        · subst h
          exact Or.inr ⟨List.mem_cons.mpr (Or.inl rfl),
            Bool.eq_false_iff.mpr hd⟩
        · rcases ih false h with h | ⟨h1, h2⟩
          · exact Or.inl h
          · exact Or.inr ⟨List.mem_cons.mpr (Or.inr h1), h2⟩

lemma mem_pyStripL {c : Char} {l : List Char} (h : c ∈ pyStripL l) : c ∈ l := by
  unfold pyStripL at h
  rw [List.mem_reverse] at h
  have h1 := (List.dropWhile_sublist (l := (l.dropWhile pyIsSpace).reverse)
    (p := pyIsSpace)).subset h
  rw [List.mem_reverse] at h1
  exact (List.dropWhile_sublist (l := l) (p := pyIsSpace)).subset h1

/-- Every character of the cleaned text is a space or an ASCII letter. -/
lemma mem_cleanTextL {c : Char} {l : List Char} (h : c ∈ cleanTextL l) :
    c = ' ' ∨ isAsciiLetter c = true := by
  unfold cleanTextL at h
  have h1 := mem_pyStripL h
  rcases mem_collapseWsAux _ _ h1 with h2 | ⟨h2, h3⟩
  · exact Or.inl h2
  · have h4 := List.of_mem_filter h2
    simp only [Bool.or_eq_true] at h4
    rcases h4 with h4 | h4
    · exact Or.inr h4
    · rw [h4] at h3; exact absurd h3 (by simp)

/-! ### The cleaned text of an input with no ASCII letters is empty -/

lemma pyStripL_all_space {l : List Char} (h : ∀ c ∈ l, pyIsSpace c = true) :
    pyStripL l = [] := by
  have h1 : l.dropWhile pyIsSpace = [] := by
    rw [List.dropWhile_eq_nil_iff]
    exact h
  unfold pyStripL
  rw [h1]
  rfl

lemma cleanTextL_no_letter {l : List Char}
    (h : ∀ c ∈ l, isAsciiLetter c = false) : cleanTextL l = [] := by
  unfold cleanTextL
  apply pyStripL_all_space
  intro c hc
  rcases mem_collapseWsAux _ _ hc with h2 | ⟨h2, h3⟩
  · rw [h2]; rfl
  · have h4 := List.of_mem_filter h2
    have h5 : c ∈ stripEmails (stripUrls l) := List.mem_of_mem_filter h2
    have h6 : c ∈ l := by
      rcases mem_stripEmailsAux _ [] h5 with h6 | h6
      · exact absurd h6 (List.not_mem_nil c)
      · rcases mem_stripUrlsAux _ [] h6 with h7 | h7
        · exact absurd h7 (List.not_mem_nil c)
        · exact h7
    simp only [Bool.or_eq_true] at h4
    rcases h4 with h4 | h4
    · rw [h c h6] at h4
      exact absurd h4 (by simp)
    · rw [h4] at h3
      exact absurd h3 (by simp)

/-! ### Single-character inputs -/

lemma cleanTextL_singleton (c : Char) (h : isAsciiLetter c = true) :
    cleanTextL [c] = [c] := by
  have hs : pyIsSpace c = false := letter_not_space c h
  have h1 : isUrlStart [c] = false := by
    simp [isUrlStart, List.isPrefixOf]
  have hurl : stripUrls [c] = [c] := by
    simp [stripUrls, stripUrlsAux, hs, urlCut, h1]
  have hmail : stripEmails [c] = [c] := by
    simp [stripEmails, stripEmailsAux, hs, emitRun, runHasEmail]
  have hfil : [c].filter (fun x => isAsciiLetter x || pyIsSpace x) = [c] := by
    simp [h]
  have hcol : collapseWsAux false [c] = [c] := by
    simp [collapseWsAux, hs]
  have hstr : pyStripL [c] = [c] := by
    simp [pyStripL, hs]
  unfold cleanTextL
  rw [hurl, hmail, hfil, hcol, hstr]

lemma tokenizeAux_singleton (c : Char) (h : pyIsSpace c = false) :
    tokenizeAux [] [c] = [[c]] := by
  rw [tokenizeAux, if_neg (by simp [h]), tokenizeAux]
  rfl

lemma pyStripL_length_le (l : List Char) : (pyStripL l).length ≤ l.length := by
  unfold pyStripL
  calc ((l.dropWhile pyIsSpace).reverse.dropWhile pyIsSpace).reverse.length
      = ((l.dropWhile pyIsSpace).reverse.dropWhile pyIsSpace).length := by
        rw [List.length_reverse]
    _ ≤ (l.dropWhile pyIsSpace).reverse.length :=
        (List.dropWhile_sublist _).length_le
    _ = (l.dropWhile pyIsSpace).length := by rw [List.length_reverse]
    _ ≤ l.length := (List.dropWhile_sublist _).length_le

/-- The processed text of an empty, one-character or letter-free input is
shorter than two characters (the `InputInsufficient` condition). -/
lemma pipeClean_short (lem : String → String) (sw : List String)
    (hlem : ∀ s : String, s.data.length ≤ 1 → (lem s).data.length ≤ 1) :
    ∀ l : List Char, (l.length ≤ 1 ∨ ∀ c ∈ l, isAsciiLetter c = false) →
      (pipeClean lem sw l).length < 2 := by
  have hnoletter : ∀ l : List Char, (∀ c ∈ l, isAsciiLetter c = false) →
      (pipeClean lem sw l).length < 2 := by
    intro l hnl
    unfold pipeClean pipeTokens
    rw [cleanTextL_no_letter hnl]
    show (0 : Nat) < 2
    decide
  intro l h
  rcases h with h | h
  · cases l with
    | nil => exact hnoletter [] (fun c hc => absurd hc (List.not_mem_nil c))
    | cons c rest =>
        cases rest with
        | cons d rest2 => simp at h
        | nil =>
            by_cases hc : isAsciiLetter c = true
            · unfold pipeClean pipeTokens
              rw [cleanTextL_singleton c hc, List.map_singleton,
                tokenizeAux_singleton _ (asciiLower_not_space c hc),
                List.filter_cons, List.filter_nil]
              by_cases hsw :
                  sw.contains (String.mk ([asciiLower c].map asciiLower)) = true
              · rw [if_neg (by rw [hsw]; decide)]
                show (0 : Nat) < 2
                decide
              · rw [if_pos (by rw [Bool.eq_false_iff.mpr hsw]; decide)]
                show ((lem (String.mk [asciiLower c])).data).length < 2
                have hl := hlem (String.mk [asciiLower c]) (Nat.le_refl 1)
                omega
            · refine hnoletter [c] (fun d hd => ?_)
              rcases List.mem_singleton.mp hd with rfl
              exact Bool.eq_false_iff.mpr hc
  · exact hnoletter l h

/-- The guard of `MLModel.predict`: a processed text shorter than two
characters yields the hardcoded default. -/
lemma predict_default_of_short (b : Backend) (lem : String → String)
    (sw : List String) (dflt : String × ℚ) (text : String)
    (h : (preprocess_input lem sw text).1.data.length < 2) :
    predict b lem sw dflt text = dflt := by
  unfold predict
  rw [if_pos]
  right
  have h1 : (pyStrip (preprocess_input lem sw text).1).length ≤
      (preprocess_input lem sw text).1.data.length := by
    show (pyStripL (preprocess_input lem sw text).1.data).length ≤ _
    exact pyStripL_length_le _
  omega

/-- C4: `predict` (for both the subject and the difficulty model, against
any backend) returns the hardcoded default — `('Mathematics', 0.5)` resp.
`('Medium', 0.5)` — whenever the preprocessed input is shorter than two
characters, and in particular on the empty string, on any one-character
string, and on any string containing no ASCII letter (e.g. punctuation
only).  The lemmatizer hypothesis states that one-character tokens keep
length at most one, which holds for WordNet's `lemmatize`. -/
theorem C4_short_input_default (b : Backend) (lem : String → String)
    (sw : List String) (text : String)
    (hlem : ∀ s : String, s.data.length ≤ 1 → (lem s).data.length ≤ 1) :
    ((preprocess_input lem sw text).1.data.length < 2 →
      subject_predict b lem sw text = ("Mathematics", 1/2) ∧
      difficulty_predict b lem sw text = ("Medium", 1/2)) ∧
    ((text.data.length ≤ 1 ∨ ∀ c ∈ text.data, isAsciiLetter c = false) →
      subject_predict b lem sw text = ("Mathematics", 1/2) ∧
      difficulty_predict b lem sw text = ("Medium", 1/2)) := by
  have hmain : ∀ dflt, (preprocess_input lem sw text).1.data.length < 2 →
      predict b lem sw dflt text = dflt := fun dflt h =>
    predict_default_of_short b lem sw dflt text h
  constructor
  · intro h
    exact ⟨hmain subject_default h, hmain difficulty_default h⟩
  · intro h
    have hshort : (preprocess_input lem sw text).1.data.length < 2 :=
      pipeClean_short lem sw hlem text.data h
    exact ⟨hmain subject_default hshort, hmain difficulty_default hshort⟩

/-- C4 witness: concrete short inputs — the empty string, a one-character
string, and a punctuation-only string — all yield the defaults, with the
identity lemmatizer and the NLTK stopword set irrelevant here
(instantiated with the empty stopword list). -/
theorem C4_short_input_default_witness :
    (subject_predict (constBackend "Physics" (9/10)) id [] "" =
        ("Mathematics", 1/2) ∧
      difficulty_predict (constBackend "Hard" (9/10)) id [] "" =
        ("Medium", 1/2)) ∧
    (subject_predict (constBackend "Physics" (9/10)) id [] "x" =
        ("Mathematics", 1/2) ∧
      difficulty_predict (constBackend "Hard" (9/10)) id [] "x" =
        ("Medium", 1/2)) ∧
    (subject_predict (constBackend "Physics" (9/10)) id [] "?!.," =
        ("Mathematics", 1/2) ∧
      difficulty_predict (constBackend "Hard" (9/10)) id [] "?!.," =
        ("Medium", 1/2)) :=
  ⟨⟨((C4_short_input_default (constBackend "Physics" (9/10)) id [] ""
        (fun _ h => h)).2 (Or.inl (by decide))).1,
    ((C4_short_input_default (constBackend "Hard" (9/10)) id [] ""
        (fun _ h => h)).2 (Or.inl (by decide))).2⟩,
   ⟨((C4_short_input_default (constBackend "Physics" (9/10)) id [] "x"
        (fun _ h => h)).2 (Or.inl (by decide))).1,
    ((C4_short_input_default (constBackend "Hard" (9/10)) id [] "x"
        (fun _ h => h)).2 (Or.inl (by decide))).2⟩,
   ⟨((C4_short_input_default (constBackend "Physics" (9/10)) id [] "?!.,"
        (fun _ h => h)).2 (Or.inr (by decide))).1,
    ((C4_short_input_default (constBackend "Hard" (9/10)) id [] "?!.,"
        (fun _ h => h)).2 (Or.inr (by decide))).2⟩⟩

/-! ### C6: the `train` fallback chain -/

/-- When the underlying fit raises on every corpus (including the bundled
samples), `train` and `_train_default_model` call each other forever: no
amount of fuel produces any result — in particular the `DummyClassifier`
branch guarded by `_train_default_model`'s `except` is never reached, no
matter whether the dummy fit would succeed. -/
lemma train_none_of_fit_false :
    ∀ (n : Nat) (dummyOk : Bool) (sT sL : List String),
      (∀ texts labels,
        train (fun _ _ => false) dummyOk sT sL n texts labels = none) ∧
      train_default_model (fun _ _ => false) dummyOk sT sL n = none := by
  intro n
  induction n with
  | zero => intro dOk sT sL; exact ⟨fun _ _ => rfl, rfl⟩
  | succ n ih =>
      intro dOk sT sL
      constructor
      · intro texts labels
        rw [train, if_neg (by simp), (ih dOk sT sL).2]
      · rw [train_default_model, (ih dOk sT sL).1 sT sL]

/-- C6 (code_bug record): with a fit that raises on every corpus — the very
scenario in which the claim promises the trivial majority-class fallback —
`train` never returns at all (for every fuel bound the mutual recursion with
`_train_default_model` is still running), because `train` swallows every
exception and so the `except` branch of `_train_default_model` holding the
`DummyClassifier` fit can never fire.  By contrast, when the fit fails on
the user corpus but succeeds on the bundled samples, `train` does return the
default-trained model without raising. -/
theorem C6_trivial_fallback_unreachable :
    (∀ (n : Nat) (dummyOk : Bool) (sT sL texts labels : List String),
      train (fun _ _ => false) dummyOk sT sL n texts labels = none) ∧
    (∀ (fit : List String → List String → Bool) (dummyOk : Bool)
        (sT sL texts labels : List String) (n : Nat),
      fit texts labels = false → fit sT sL = true →
      train fit dummyOk sT sL (n + 3) texts labels =
        some (Except.ok TrainOutcome.defaultTrained)) := by
  constructor
  · intro n dOk sT sL texts labels
    exact (train_none_of_fit_false n dOk sT sL).1 texts labels
  · intro fit dOk sT sL texts labels n hf hs
    have h1 : train fit dOk sT sL (n + 1) sT sL =
        some (Except.ok TrainOutcome.trained) := by
      rw [train, if_pos hs]
    have h2 : train_default_model fit dOk sT sL (n + 2) =
        some (Except.ok TrainOutcome.defaultTrained) := by
      have he : n + 2 = (n + 1) + 1 := rfl
      rw [he, train_default_model, h1]
      rfl
    have he3 : n + 3 = (n + 2) + 1 := rfl
    rw [he3, train, if_neg (by simp [hf]), h2]

/-- C6 witness: with a fit that fails exactly on empty corpora, training on
an empty corpus falls back to the (successful) default training on the
bundled subject samples and returns normally. -/
theorem C6_trivial_fallback_unreachable_witness :
    train (fun t _ => !t.isEmpty) true sample_texts_subject
        sample_labels_subject 3 [] [] =
      some (Except.ok TrainOutcome.defaultTrained) :=
  C6_trivial_fallback_unreachable.2 (fun t _ => !t.isEmpty) true
    sample_texts_subject sample_labels_subject [] [] 0 rfl rfl

/-! ### C7: tokens are lowercase-alphabetic and the cleaned text is their
join -/

/-- Python `' '.join` over strings. -/
def joinSp : List String → String
  | [] => ""
  | [t] => t
  | t :: ts => t ++ " " ++ joinSp ts

lemma joinSp_eq (ts : List (List Char)) :
    String.mk (joinTokens ts) = joinSp (ts.map String.mk) := by
  induction ts with
  | nil => rfl
  | cons t ts ih =>
      cases ts with
      | nil => rfl
      | cons t2 ts2 =>
          show String.mk (t ++ ' ' :: joinTokens (t2 :: ts2)) =
            String.mk t ++ " " ++ joinSp ((t2 :: ts2).map String.mk)
          rw [← ih]
          show String.mk (t ++ ' ' :: joinTokens (t2 :: ts2)) =
            String.mk ((t ++ [' ']) ++ joinTokens (t2 :: ts2))
          exact congrArg String.mk (by simp)

/-- Every character of every token produced by the tokenizer is a
non-whitespace character of the input (or of the accumulator). -/
lemma tokenizeAux_token_chars :
    ∀ (l cur : List Char), (∀ c ∈ cur, pyIsSpace c = false) →
      ∀ t ∈ tokenizeAux cur l, ∀ c ∈ t,
        (c ∈ cur ∨ c ∈ l) ∧ pyIsSpace c = false := by
  intro l
  induction l with
  | nil =>
      intro cur hcur t ht c hc
      rw [tokenizeAux] at ht
      split at ht
      · exact absurd ht (List.not_mem_nil t)
      · rcases List.mem_singleton.mp ht with rfl
        rw [List.mem_reverse] at hc
        exact ⟨Or.inl hc, hcur c hc⟩
  | cons d rest ih =>
      intro cur hcur t ht c hc
      by_cases hd : pyIsSpace d
      · rw [tokenizeAux, if_pos hd] at ht
        split at ht
        · rcases ih [] (fun c hc => absurd hc (List.not_mem_nil c)) t ht c hc
            with ⟨h1 | h1, h2⟩
          · exact absurd h1 (List.not_mem_nil c)
          · exact ⟨Or.inr (List.mem_cons.mpr (Or.inr h1)), h2⟩
        · rcases List.mem_cons.mp ht with rfl | ht
          · rw [List.mem_reverse] at hc
            exact ⟨Or.inl hc, hcur c hc⟩
          · rcases ih [] (fun c hc => absurd hc (List.not_mem_nil c)) t ht c hc
              with ⟨h1 | h1, h2⟩
            · exact absurd h1 (List.not_mem_nil c)
            · exact ⟨Or.inr (List.mem_cons.mpr (Or.inr h1)), h2⟩
      · rw [tokenizeAux, if_neg hd] at ht
        have hcur' : ∀ c ∈ d :: cur, pyIsSpace c = false := by
          intro c hc
          rcases List.mem_cons.mp hc with rfl | hc
          · exact Bool.eq_false_iff.mpr hd
          · exact hcur c hc
        rcases ih (d :: cur) hcur' t ht c hc with ⟨h1 | h1, h2⟩
        · rcases List.mem_cons.mp h1 with rfl | h1
          · exact ⟨Or.inr (List.mem_cons.mpr (Or.inl rfl)), h2⟩
          · exact ⟨Or.inl h1, h2⟩
        · exact ⟨Or.inr (List.mem_cons.mpr (Or.inr h1)), h2⟩

/-- Characters of the tokens right after tokenization of the cleaned,
lowercased text are lowercase letters. -/
lemma raw_token_chars_lower (text : String) (t : List Char)
    (ht : t ∈ tokenizeAux [] ((cleanTextL text.data).map asciiLower)) :
    ∀ c ∈ t, isLowerAlpha c = true := by
  intro c hc
  rcases tokenizeAux_token_chars _ []
      (fun c hc => absurd hc (List.not_mem_nil c)) t ht c hc with ⟨h1 | h1, h2⟩
  · exact absurd h1 (List.not_mem_nil c)
  · rcases List.mem_map.mp h1 with ⟨c0, hc0, rfl⟩
    rcases mem_cleanTextL hc0 with rfl | hc1
    · exact absurd h2 (by simp [asciiLower, pyIsSpace])
    · exact isLowerAlpha_asciiLower c0 hc1

/-- C7: every token returned by `preprocess` consists only of lowercase
ASCII letters, and the returned cleaned text is exactly the tokens joined
by single spaces.  The lemmatizer hypothesis — lemmas of lowercase-alphabetic
words are lowercase-alphabetic — holds for WordNet's `lemmatize`. -/
theorem C7_tokens_lower_alpha (lem : String → String) (sw : List String)
    (text : String)
    (hlem : ∀ s : String, (∀ c ∈ s.data, isLowerAlpha c = true) →
      ∀ c ∈ (lem s).data, isLowerAlpha c = true) :
    (∀ t ∈ (preprocess_input lem sw text).2, ∀ c ∈ t.data,
      isLowerAlpha c = true) ∧
    (preprocess_input lem sw text).1 =
      joinSp (preprocess_input lem sw text).2 := by
  constructor
  · intro t ht c hc
    rcases List.mem_map.mp ht with ⟨t1, ht1, rfl⟩
    rcases List.mem_map.mp ht1 with ⟨t0, ht0, rfl⟩
    have ht0' : t0 ∈ tokenizeAux [] ((cleanTextL text.data).map asciiLower) :=
      List.mem_of_mem_filter ht0
    exact hlem (String.mk t0) (raw_token_chars_lower text t0 ht0') c hc
  · exact joinSp_eq _

/-- C7 witness: on a concrete mixed-case input with punctuation and digits,
using the identity lemmatizer and an empty stopword set. -/
theorem C7_tokens_lower_alpha_witness :
    (∀ t ∈ (preprocess_input id [] "Hello, World 123!").2, ∀ c ∈ t.data,
      isLowerAlpha c = true) ∧
    (preprocess_input id [] "Hello, World 123!").1 =
      joinSp (preprocess_input id [] "Hello, World 123!").2 :=
  C7_tokens_lower_alpha id [] "Hello, World 123!" (fun _ h => h)

/-! ### C8: idempotence of the preprocessing pipeline -/

/-- The NLTK `stopwords.words('english')` list restricted to its purely
alphabetic entries, in list order.  The dropped entries (contractions such
as `you + apostrophe + re`) contain an apostrophe and therefore can never
match the purely alphabetic tokens the cleaner produces, so the restriction
is observationally equivalent inside this pipeline. -/
def nltk_stopwords : List String :=
  ["i", "me", "my", "myself", "we", "our", "ours", "ourselves", "you",
   "your", "yours", "yourself", "yourselves", "he", "him", "his", "himself",
   "she", "her", "hers", "herself", "it", "its", "itself", "they", "them",
   "their", "theirs", "themselves", "what", "which", "who", "whom", "this",
   "that", "these", "those", "am", "is", "are", "was", "were", "be", "been",
   "being", "have", "has", "had", "having", "do", "does", "did", "doing",
   "a", "an", "the", "and", "but", "if", "or", "because", "as", "until",
   "while", "of", "at", "by", "for", "with", "about", "against", "between",
   "into", "through", "during", "before", "after", "above", "below", "to",
   "from", "up", "down", "in", "out", "on", "off", "over", "under", "again",
   "further", "then", "once", "here", "there", "when", "where", "why",
   "how", "all", "any", "both", "each", "few", "more", "most", "other",
   "some", "such", "no", "nor", "not", "only", "own", "same", "so", "than",
   "too", "very", "s", "t", "can", "will", "just", "don", "should", "now",
   "d", "ll", "m", "o", "re", "ve", "y", "ain", "aren", "couldn", "didn",
   "doesn", "hadn", "hasn", "haven", "isn", "ma", "mightn", "mustn",
   "needn", "shan", "shouldn", "wasn", "weren", "won", "wouldn"]

/-- C8 counterexample: the input `"htt1px"` cleans to `"httpx"` (the digit
is removed after URL stripping), whose tokens survive stopword removal and
are fixed by the lemmatizer; but a second pass matches `httpx` against the
URL pattern `http\S+` and deletes it, so re-preprocessing the cleaned text
yields `""` instead of `"httpx"`. -/
theorem C8_counterexample :
    preprocess_input id nltk_stopwords
        ((preprocess_input id nltk_stopwords "htt1px").1) ≠
      preprocess_input id nltk_stopwords "htt1px" := by
  decide

lemma lowerAlpha_ne_at (c : Char) (h : isLowerAlpha c = true) : c ≠ '@' := by
  intro hc
  subst hc
  exact absurd h (by decide)

lemma mem_joinTokens {c : Char} :
    ∀ {ts : List (List Char)}, c ∈ joinTokens ts →
      c = ' ' ∨ ∃ t ∈ ts, c ∈ t := by
  intro ts
  induction ts with
  | nil => intro h; exact absurd h (List.not_mem_nil c)
  | cons t ts ih =>
      intro h
      cases ts with
      | nil => exact Or.inr ⟨t, List.mem_singleton.mpr rfl, h⟩
      | cons t2 ts2 =>
          have h' : c ∈ t ++ ' ' :: joinTokens (t2 :: ts2) := h
          rcases List.mem_append.mp h' with h | h
          · exact Or.inr ⟨t, List.mem_cons.mpr (Or.inl rfl), h⟩
          · rcases List.mem_cons.mp h with rfl | h
            · exact Or.inl rfl
            · rcases ih h with h | ⟨t1, ht1, hc1⟩
              · exact Or.inl h
              · exact Or.inr ⟨t1, List.mem_cons.mpr (Or.inr ht1), hc1⟩

lemma runHasEmail_false {run : List Char} (h : ∀ c ∈ run, c ≠ '@') :
    runHasEmail run = false := by
  unfold runHasEmail
  rw [Bool.eq_false_iff]
  intro hcon
  have h1 : '@' ∈ (run.drop 1).dropLast := by simpa using hcon
  have h2 : '@' ∈ run :=
    List.drop_subset 1 run ((List.dropLast_sublist _).subset h1)
  exact h '@' h2 rfl

lemma stripEmailsAux_id :
    ∀ (l cur : List Char), (∀ c, (c ∈ cur ∨ c ∈ l) → c ≠ '@') →
      stripEmailsAux cur l = cur ++ l := by
  intro l
  induction l with
  | nil =>
      intro cur h
      show emitRun cur = cur ++ []
      rw [emitRun, if_neg (by
        rw [runHasEmail_false (fun c hc => h c (Or.inl hc))]
        simp), List.append_nil]
  | cons d rest ih =>
      intro cur h
      by_cases hd : pyIsSpace d
      · rw [stripEmailsAux, if_pos hd]
        rw [emitRun, if_neg (by
          rw [runHasEmail_false (fun c hc => h c (Or.inl hc))]
          simp)]
        rw [ih [] (fun c hc => h c (by
          rcases hc with hc | hc
          · exact absurd hc (List.not_mem_nil c)
          · exact Or.inr (List.mem_cons.mpr (Or.inr hc))))]
        simp
      · rw [stripEmailsAux, if_neg hd]
        rw [ih (cur ++ [d]) (fun c hc => h c (by
          rcases hc with hc | hc
          · rcases List.mem_append.mp hc with hc | hc
            · exact Or.inl hc
            · exact Or.inr (List.mem_cons.mpr
                (Or.inl (List.mem_singleton.mp hc)))
          · exact Or.inr (List.mem_cons.mpr (Or.inr hc))))]
        simp

/-- A nonempty all-non-whitespace prefix passes through the whitespace
collapser untouched and resets its state. -/
lemma collapseWsAux_nonspace_front :
    ∀ (t : List Char) (c : Char) (r : List Char) (b : Bool),
      pyIsSpace c = false → (∀ x ∈ t, pyIsSpace x = false) →
      collapseWsAux b ((c :: t) ++ r) = (c :: t) ++ collapseWsAux false r := by
  intro t
  induction t with
  | nil =>
      intro c r b hc _
      show collapseWsAux b (c :: r) = c :: collapseWsAux false r
      rw [collapseWsAux, if_neg (by simp [hc])]
  | cons d t' ih =>
      intro c r b hc ht
      show collapseWsAux b (c :: ((d :: t') ++ r)) =
        c :: ((d :: t') ++ collapseWsAux false r)
      rw [collapseWsAux, if_neg (by simp [hc])]
      rw [ih d r false (ht d (List.mem_cons.mpr (Or.inl rfl)))
        (fun x hx => ht x (List.mem_cons.mpr (Or.inr hx)))]

lemma collapseWsAux_join (ts : List (List Char))
    (h : ∀ t ∈ ts, t ≠ [] ∧ ∀ c ∈ t, pyIsSpace c = false) :
    ∀ b, collapseWsAux b (joinTokens ts) = joinTokens ts := by
  induction ts with
  | nil => intro b; rfl
  | cons t ts ih =>
      intro b
      obtain ⟨hne, hns⟩ := h t (List.mem_cons.mpr (Or.inl rfl))
      obtain ⟨c, t', rfl⟩ : ∃ c t', t = c :: t' := by
        cases t with
        | nil => exact absurd rfl hne
        | cons c t' => exact ⟨c, t', rfl⟩
      cases ts with
      | nil =>
          have h2 := collapseWsAux_nonspace_front t' c [] b
            (hns c (List.mem_cons.mpr (Or.inl rfl)))
            (fun x hx => hns x (List.mem_cons.mpr (Or.inr hx)))
          have h3 : collapseWsAux false ([] : List Char) = [] := rfl
          rw [h3] at h2
          simp only [List.append_nil] at h2
          exact h2
      | cons t2 ts2 =>
          show collapseWsAux b ((c :: t') ++ ' ' :: joinTokens (t2 :: ts2)) =
            (c :: t') ++ ' ' :: joinTokens (t2 :: ts2)
          rw [collapseWsAux_nonspace_front t' c (' ' :: joinTokens (t2 :: ts2)) b
            (hns c (List.mem_cons.mpr (Or.inl rfl)))
            (fun x hx => hns x (List.mem_cons.mpr (Or.inr hx)))]
          rw [collapseWsAux, if_pos (by decide), if_neg (by decide)]
          rw [ih (fun t ht => h t (List.mem_cons.mpr (Or.inr ht))) true]

lemma joinTokens_head_nonspace (ts : List (List Char))
    (h : ∀ t ∈ ts, t ≠ [] ∧ ∀ c ∈ t, pyIsSpace c = false) (hne : ts ≠ []) :
    ∃ c r', joinTokens ts = c :: r' ∧ pyIsSpace c = false := by
  cases ts with
  | nil => exact absurd rfl hne
  | cons t ts2 =>
      obtain ⟨htne, htns⟩ := h t (List.mem_cons.mpr (Or.inl rfl))
      obtain ⟨c, t', rfl⟩ : ∃ c t', t = c :: t' := by
        cases t with
        | nil => exact absurd rfl htne
        | cons c t' => exact ⟨c, t', rfl⟩
      cases ts2 with
      | nil => exact ⟨c, t', rfl, htns c (List.mem_cons.mpr (Or.inl rfl))⟩
      | cons t2 ts3 =>
          exact ⟨c, t' ++ ' ' :: joinTokens (t2 :: ts3), rfl,
            htns c (List.mem_cons.mpr (Or.inl rfl))⟩

lemma joinTokens_reverse_head_nonspace (ts : List (List Char))
    (h : ∀ t ∈ ts, t ≠ [] ∧ ∀ c ∈ t, pyIsSpace c = false) (hne : ts ≠ []) :
    ∃ c r', (joinTokens ts).reverse = c :: r' ∧ pyIsSpace c = false := by
  induction ts with
  | nil => exact absurd rfl hne
  | cons t ts2 ih =>
      obtain ⟨htne, htns⟩ := h t (List.mem_cons.mpr (Or.inl rfl))
      cases ts2 with
      | nil =>
          obtain ⟨c, r', hr⟩ : ∃ c r', t.reverse = c :: r' := by
            cases hr : t.reverse with
            | nil =>
                rw [← List.reverse_nil] at hr
                exact absurd (List.reverse_injective hr) htne
            | cons c r' => exact ⟨c, r', rfl⟩
          refine ⟨c, r', hr, ?_⟩
          have hc : c ∈ t := by
            rw [← List.mem_reverse, hr]
            exact List.mem_cons.mpr (Or.inl rfl)
          exact htns c hc
      | cons t2 ts3 =>
          obtain ⟨c, r', hr, hcs⟩ := ih
            (fun t ht => h t (List.mem_cons.mpr (Or.inr ht))) (by simp)
          refine ⟨c, r' ++ ' ' :: t.reverse, ?_, hcs⟩
          show (t ++ ' ' :: joinTokens (t2 :: ts3)).reverse = _
          rw [List.reverse_append, List.reverse_cons, hr]
          simp

lemma pyStripL_join (ts : List (List Char))
    (h : ∀ t ∈ ts, t ≠ [] ∧ ∀ c ∈ t, pyIsSpace c = false) :
    pyStripL (joinTokens ts) = joinTokens ts := by
  cases hts : ts with
  | nil => rfl
  | cons t0 ts0 =>
      rw [← hts]
      have hne : ts ≠ [] := by rw [hts]; simp
      obtain ⟨c, r', hh, hcs⟩ := joinTokens_head_nonspace ts h hne
      obtain ⟨c2, r2, hh2, hcs2⟩ := joinTokens_reverse_head_nonspace ts h hne
      unfold pyStripL
      rw [hh, List.dropWhile_cons, if_neg (by simp [hcs]), ← hh, hh2,
        List.dropWhile_cons, if_neg (by simp [hcs2]), ← hh2,
        List.reverse_reverse]

lemma map_fix {α : Type} (f : α → α) :
    ∀ (l : List α), (∀ c ∈ l, f c = c) → l.map f = l := by
  intro l
  induction l with
  | nil => intro _; rfl
  | cons c rest ih =>
      intro h
      rw [List.map_cons, h c (List.mem_cons.mpr (Or.inl rfl)),
        ih (fun x hx => h x (List.mem_cons.mpr (Or.inr hx)))]

/-- The tokenizer consumes a non-whitespace prefix into its accumulator. -/
lemma tokenizeAux_nonspace_front :
    ∀ (t cur r : List Char), (∀ c ∈ t, pyIsSpace c = false) →
      tokenizeAux cur (t ++ r) = tokenizeAux (t.reverse ++ cur) r := by
  intro t
  induction t with
  | nil => intro cur r _; rfl
  | cons c t' ih =>
      intro cur r ht
      show tokenizeAux cur (c :: (t' ++ r)) = _
      rw [tokenizeAux, if_neg (by
        simp [ht c (List.mem_cons.mpr (Or.inl rfl))])]
      rw [ih (c :: cur) r (fun x hx => ht x (List.mem_cons.mpr (Or.inr hx)))]
      congr 1
      simp

/-- Tokenizing the space-join of nonempty, whitespace-free tokens recovers
exactly those tokens. -/
lemma tokenizeAux_join (ts : List (List Char))
    (h : ∀ t ∈ ts, t ≠ [] ∧ ∀ c ∈ t, pyIsSpace c = false) :
    tokenizeAux [] (joinTokens ts) = ts := by
  induction ts with
  | nil => rfl
  | cons t ts2 ih =>
      obtain ⟨htne, htns⟩ := h t (List.mem_cons.mpr (Or.inl rfl))
      have hrne : t.reverse ≠ [] := by
        intro hr
        rw [← List.reverse_nil] at hr
        exact absurd (List.reverse_injective hr) htne
      cases ts2 with
      | nil =>
          show tokenizeAux [] (joinTokens [t]) = [t]
          have h1 : joinTokens [t] = t ++ [] := by simp [joinTokens]
          rw [h1, tokenizeAux_nonspace_front t [] [] htns]
          rw [tokenizeAux, if_neg (by simp [hrne])]
          simp
      | cons t2 ts3 =>
          show tokenizeAux [] (t ++ ' ' :: joinTokens (t2 :: ts3)) = _
          rw [tokenizeAux_nonspace_front t [] (' ' :: joinTokens (t2 :: ts3))
            htns]
          rw [tokenizeAux, if_pos (by decide), if_neg (by simp [hrne])]
          rw [ih (fun x hx => h x (List.mem_cons.mpr (Or.inr hx)))]
          simp

/-- Core of the amended idempotence: re-running the token pipeline on the
space-join of tokens that are nonempty, lowercase-alphabetic, not stopwords,
fixed by the lemmatizer, and whose join the URL stage leaves alone, recovers
exactly those tokens. -/
lemma pipeline_idempotent_core (lem : String → String) (sw : List String)
    (ts : List (List Char))
    (htok : ∀ t ∈ ts, t ≠ [] ∧ ∀ c ∈ t, isLowerAlpha c = true)
    (hurl : stripUrls (joinTokens ts) = joinTokens ts)
    (hsw : ∀ t ∈ ts, sw.contains (String.mk (t.map asciiLower)) = false)
    (hlem : ∀ t ∈ ts, (lem (String.mk t)).data = t) :
    pipeTokens lem sw (joinTokens ts) = ts := by
  have htok' : ∀ t ∈ ts, t ≠ [] ∧ ∀ c ∈ t, pyIsSpace c = false :=
    fun t ht => ⟨(htok t ht).1,
      fun c hc => lowerAlpha_not_space c ((htok t ht).2 c hc)⟩
  have hat : ∀ c ∈ joinTokens ts, c ≠ '@' := by
    intro c hc
    rcases mem_joinTokens hc with rfl | ⟨t, ht, hct⟩
    · decide
    · exact lowerAlpha_ne_at c ((htok t ht).2 c hct)
  have hE : stripEmails (joinTokens ts) = joinTokens ts := by
    have h1 := stripEmailsAux_id (joinTokens ts) []
      (fun c hc => by
        rcases hc with hc | hc
        · exact absurd hc (List.not_mem_nil c)
        · exact hat c hc)
    exact h1
  have hF : (joinTokens ts).filter (fun c => isAsciiLetter c || pyIsSpace c) =
      joinTokens ts := by
    rw [List.filter_eq_self]
    intro c hc
    rcases mem_joinTokens hc with rfl | ⟨t, ht, hct⟩
    · decide
    · simp [lowerAlpha_isLetter c ((htok t ht).2 c hct)]
  have hclean : cleanTextL (joinTokens ts) = joinTokens ts := by
    unfold cleanTextL
    rw [hurl, hE, hF, collapseWsAux_join ts htok' false, pyStripL_join ts htok']
  have hM : (joinTokens ts).map asciiLower = joinTokens ts := by
    apply map_fix
    intro c hc
    rcases mem_joinTokens hc with rfl | ⟨t, ht, hct⟩
    · exact asciiLower_fix ' ' (Or.inr (by decide))
    · exact asciiLower_fix c (Or.inl ((htok t ht).2 c hct))
  have hFsw : ts.filter
      (fun t => !(sw.contains (String.mk (t.map asciiLower)))) = ts := by
    rw [List.filter_eq_self]
    intro t ht
    rw [hsw t ht]
    decide
  have hMl : ts.map (fun t => (lem (String.mk t)).data) = ts :=
    map_fix _ ts hlem
  unfold pipeTokens
  rw [hclean, hM, tokenizeAux_join ts htok', hFsw, hMl]

/-- C8, amended: the preprocessing pipeline is idempotent on its own output
for every input whose produced tokens are nonempty and lowercase-alphabetic,
are not stopwords, are fixed by a second lemmatization, and whose cleaned
text is left unchanged by the URL-stripping stage (no `http`/`www` followed
by further non-whitespace); re-preprocessing the cleaned text then yields
the same cleaned text and the same token sequence. -/
theorem C8_preprocess_idempotent (lem : String → String) (sw : List String)
    (text : String)
    (htok : ∀ t ∈ pipeTokens lem sw text.data,
      t ≠ [] ∧ ∀ c ∈ t, isLowerAlpha c = true)
    (hurl : stripUrls (pipeClean lem sw text.data) = pipeClean lem sw text.data)
    (hsw : ∀ t ∈ pipeTokens lem sw text.data,
      sw.contains (String.mk (t.map asciiLower)) = false)
    (hlem : ∀ t ∈ pipeTokens lem sw text.data,
      (lem (String.mk t)).data = t) :
    preprocess_input lem sw ((preprocess_input lem sw text).1) =
      preprocess_input lem sw text := by
  have hcore := pipeline_idempotent_core lem sw (pipeTokens lem sw text.data)
    htok hurl hsw hlem
  have h1 : (preprocess_input lem sw text).1.data =
      joinTokens (pipeTokens lem sw text.data) := rfl
  show (String.mk (pipeClean lem sw (preprocess_input lem sw text).1.data),
        (pipeTokens lem sw (preprocess_input lem sw text).1.data).map
          String.mk) =
      (String.mk (pipeClean lem sw text.data),
        (pipeTokens lem sw text.data).map String.mk)
  rw [h1]
  unfold pipeClean
  rw [hcore]

/-- C8 witness: the amended idempotence applied to
`"What is the capital of France"`, whose cleaned text is
`"capital france"` (the stopwords are removed), with the identity
lemmatizer and the NLTK stopword set. -/
theorem C8_preprocess_idempotent_witness :
    preprocess_input id nltk_stopwords
        ((preprocess_input id nltk_stopwords
          "What is the capital of France").1) =
      preprocess_input id nltk_stopwords "What is the capital of France" :=
  C8_preprocess_idempotent id nltk_stopwords "What is the capital of France"
    (by decide) (by decide) (by decide) (fun t _ => rfl)

end EduSolve
